import Mathlib

/-!
Verification of the orchestration core of the Calm Meridian studio backend:
the job record store and its state machine (backend/main.py), the slot
scheduler with its durable done-set (backend/ideas/auto_publisher.py), the
round-robin idea selector (backend/ideas/idea_bank.py) and the
buffer-lookahead scheduler (backend/ideas/long_form_publisher.py).

Python dictionaries are modelled as association lists, the bounded asyncio
queues of the SSE event bus as lists with an explicit capacity, and the
blocking pipeline call as a parameter carrying its outcome.
-/

namespace Studio

/-- A job record, mirroring the entries of the jobs dictionary in
backend/main.py (the fields the orchestration logic reads or writes). -/
structure Job where
  status : String
  progress : Int
  message : String
  error : Option String
  completed_at : Option String
  created_at : String
  video_path : Option String
  video_url : Option String
  scenes : Option String
  seo_metadata : Option String
  deriving Repr, DecidableEq

/-- The jobs dictionary: an association list from job id to record. -/
abbrev JobsStore := List (String × Job)

/-- Payload of an SSE notification, mirroring the json payloads pushed in
update_job, delete_job and clear_completed_jobs. -/
inductive EventData
  | job (j : Job)
  | deleted (id : String)
  | cleared (n : Nat)
  deriving Repr, DecidableEq

/-- One SSE notification record: event name plus serialized data. -/
structure Msg where
  event : String
  data : EventData
  deriving Repr, DecidableEq

/-- A subscriber queue: asyncio.Queue with a fixed maxsize. -/
structure Queue where
  maxsize : Nat
  items : List Msg
  deriving Repr, DecidableEq

instance : Inhabited Queue := ⟨⟨0, []⟩⟩

/-- put_nowait on a bounded queue: enqueue when below capacity, otherwise
the QueueFull exception is swallowed and the message is dropped. -/
def put_nowait (q : Queue) (m : Msg) : Queue :=
  if q.items.length < q.maxsize then { q with items := q.items ++ [m] } else q

/-- broadcast_sse (backend/main.py): best-effort push of one message to
every currently registered subscriber queue. -/
def broadcast_sse (qs : List Queue) (m : Msg) : List Queue :=
  qs.map (fun q => put_nowait q m)

/-- A keyword-argument set for update_job: a present field overwrites the
stored one, an absent field leaves it alone (dict.update semantics). -/
structure JobUpdate where
  status : Option String := none
  progress : Option Int := none
  message : Option String := none
  error : Option (Option String) := none
  completed_at : Option (Option String) := none
  video_path : Option (Option String) := none
  video_url : Option (Option String) := none
  scenes : Option (Option String) := none
  seo_metadata : Option (Option String) := none
  deriving Repr, DecidableEq

/-- jobs job_id .update kwargs -/
def applyUpdate (j : Job) (u : JobUpdate) : Job :=
  { status := u.status.getD j.status
    progress := u.progress.getD j.progress
    message := u.message.getD j.message
    error := u.error.getD j.error
    completed_at := u.completed_at.getD j.completed_at
    created_at := j.created_at
    video_path := u.video_path.getD j.video_path
    video_url := u.video_url.getD j.video_url
    scenes := u.scenes.getD j.scenes
    seo_metadata := u.seo_metadata.getD j.seo_metadata }

/-- Dictionary lookup jobs job_id . -/
def lookupJob (jobs : JobsStore) (id : String) : Option Job :=
  (List.find? (fun p => p.1 == id) jobs).map (fun p => p.2)

/-- In-place update of the entry with the given key (dict keys are unique,
so only the first occurrence is touched). -/
def setJob : JobsStore → String → JobUpdate → JobsStore
  | [], _, _ => []
  | p :: rest, id, u =>
    if p.1 = id then (p.1, applyUpdate p.2 u) :: rest else p :: setJob rest id u

/-- The notification update_job serializes: event job_update with the
freshly updated record. -/
def jobUpdateMsg (j : Job) : Msg := ⟨"job_update", .job j⟩

/-- update_job (backend/main.py lines 56-67): mutate the stored record,
persist, then notify every SSE subscriber best-effort. -/
def update_job (jobs : JobsStore) (qs : List Queue) (id : String) (u : JobUpdate) :
    JobsStore × List Queue :=
  match lookupJob jobs id with
  | none => (jobs, qs)
  | some j => (setJob jobs id u, broadcast_sse qs (jobUpdateMsg (applyUpdate j u)))

/-- Call-site kwargs of the progress callback in run_generation. -/
def progressUpdate (p : Int) (m : String) : JobUpdate :=
  { progress := some p, message := some m }

/-- Call-site kwargs of the start of run_generation. -/
def startRunningUpdate : JobUpdate :=
  { status := some "running", message := some "Initializing..." }

/-- Call-site kwargs of the success branch of run_generation. -/
def completeUpdate (now vp vu sc seo : String) : JobUpdate :=
  { status := some "completed", progress := some 100,
    message := some "Video generation complete!",
    completed_at := some (some now), video_path := some (some vp),
    video_url := some (some vu), scenes := some (some sc),
    seo_metadata := some (some seo) }

/-- Call-site kwargs of the except branch of run_generation. -/
def failUpdate (e : String) : JobUpdate :=
  { status := some "failed", error := some (some e),
    message := some ("Error: " ++ e) }

/-- Call-site kwargs of retry_job. -/
def retryUpdate : JobUpdate :=
  { status := some "pending", progress := some 0,
    message := some "Queued for retry", error := some none,
    completed_at := some none, video_path := some none,
    video_url := some none, scenes := some none, seo_metadata := some none }

/-- Call-site kwargs of cancel_job. -/
def cancelUpdate : JobUpdate :=
  { status := some "cancelled", message := some "Cancelled by user" }

/-- Outcome of the external generation pipeline invoked by run_generation. -/
inductive PipelineResult
  | ok (now vp vu sc seo : String)
  | err (e : String)
  deriving Repr, DecidableEq

/-- run_generation (backend/main.py lines 366-410): skip cancelled jobs,
transition to running, apply the pipeline's progress callbacks, then apply
the terminal update for the pipeline's outcome. -/
def run_generation (jobs : JobsStore) (qs : List Queue) (id : String)
    (progressEvents : List (Int × String)) (res : PipelineResult) :
    JobsStore × List Queue :=
  match lookupJob jobs id with
  | none => (jobs, qs)
  | some j =>
    if j.status = "cancelled" then (jobs, qs)
    else
      let s1 := update_job jobs qs id startRunningUpdate
      let s2 := progressEvents.foldl
        (fun acc pm => update_job acc.1 acc.2 id (progressUpdate pm.1 pm.2)) s1
      match res with
      | .ok now vp vu sc seo => update_job s2.1 s2.2 id (completeUpdate now vp vu sc seo)
      | .err e => update_job s2.1 s2.2 id (failUpdate e)

/-- cancel_job (backend/main.py lines 449-459): reject unless pending;
the third component carries the HTTP error detail, if any. -/
def cancel_job (jobs : JobsStore) (qs : List Queue) (id : String) :
    JobsStore × List Queue × Option String :=
  match lookupJob jobs id with
  | none => (jobs, qs, some "Job not found")
  | some j =>
    if j.status ≠ "pending" then
      (jobs, qs, some "Only pending jobs can be cancelled")
    else
      let r := update_job jobs qs id cancelUpdate
      (r.1, r.2, none)

/-- retry_job (backend/main.py lines 433-447): reject unless failed. -/
def retry_job (jobs : JobsStore) (qs : List Queue) (id : String) :
    JobsStore × List Queue × Option String :=
  match lookupJob jobs id with
  | none => (jobs, qs, some "Job not found")
  | some j =>
    if j.status ≠ "failed" then
      (jobs, qs, some "Only failed jobs can be retried")
    else
      let r := update_job jobs qs id retryUpdate
      (r.1, r.2, none)

/-- The per-job body of the startup loop in lifespan (backend/main.py
lines 132-137). -/
def recoverJob (j : Job) : Job :=
  if j.status = "running" then
    { j with
        status := "failed"
        error := some "Server restarted during generation"
        message := "Interrupted by server restart" }
  else j

/-- Startup recovery: after load_jobs, every running job is marked failed. -/
def startup_recover (jobs : JobsStore) : JobsStore :=
  jobs.map (fun p => (p.1, recoverJob p.2))

/-- Terminal statuses, as tested by clear_completed_jobs. -/
def isTerminal (s : String) : Bool :=
  s == "completed" || s == "failed" || s == "cancelled"

/-- clear_completed_jobs (backend/main.py lines 461-469): drop every
terminal job, broadcast the count of removed jobs, report that count. -/
def clear_completed_jobs (jobs : JobsStore) (qs : List Queue) :
    JobsStore × List Queue × Nat :=
  let toRemove := jobs.filter (fun p => isTerminal p.2.status)
  let remaining := jobs.filter (fun p => !(isTerminal p.2.status))
  (remaining, broadcast_sse qs ⟨"jobs_cleared", .cleared toRemove.length⟩, toRemove.length)

/-- Sample records used by the concrete witnesses. -/
def sampleRunning : Job :=
  { status := "running", progress := 40, message := "Rendering",
    error := none, completed_at := none, created_at := "2026-01-01T00:00:00",
    video_path := none, video_url := none, scenes := none, seo_metadata := none }

def samplePending : Job :=
  { sampleRunning with status := "pending", progress := 0, message := "Queued for processing" }

def sampleFailed : Job :=
  { sampleRunning with status := "failed", error := some "boom" }

/-! ### Idea bank (backend/ideas/idea_bank.py) -/

/-- One work item of the idea bank, with the fields the selector reads. -/
structure Idea where
  id : Nat
  domain : String
  status : String
  deriving Repr, DecidableEq

/-- The durable document of ideas_bank.json: the ideas list and the
persisted round-robin cursor (its json key is shorts_domain_index). -/
structure BankData where
  ideas : List Idea
  shorts_domain_index : Nat
  deriving Repr, DecidableEq

/-- The available sublist computed at the top of pick_idea. -/
def availIdeas (ideas : List Idea) : List Idea :=
  ideas.filter (fun i => i.status == "available")

/-- Number of available ideas of a given domain. -/
def countAvail (d : String) (ideas : List Idea) : Nat :=
  ((availIdeas ideas).filter (fun i => i.domain == d)).length

/-- The in-place status mutation picked status = scheduled, applied to the
stored list (dict identity is modelled by the unique idea id). -/
def markScheduled (ideas : List Idea) (pid : Nat) : List Idea :=
  ideas.map (fun i => if i.id = pid then { i with status := "scheduled" } else i)

/-- pick_idea (backend/ideas/idea_bank.py lines 63-100).  The uniform
random choice among candidates is modelled by the index parameter r,
reduced modulo the number of candidates. -/
def pick_idea (names : List String) (data : BankData) (r : Nat) :
    Option Idea × BankData :=
  let available := availIdeas data.ideas
  if available.isEmpty then (none, data)
  else
    let n := names.length
    let di := data.shorts_domain_index
    match (List.range n).find? (fun off =>
        !((available.filter (fun i => i.domain == names.getD ((di + off) % n) "")).isEmpty)) with
    | some off =>
      let idx := (di + off) % n
      let candidates := available.filter (fun i => i.domain == names.getD idx "")
      match candidates[r % candidates.length]? with
      | some picked =>
        (some { picked with status := "scheduled" },
         { ideas := markScheduled data.ideas picked.id,
           shorts_domain_index := (idx + 1) % n })
      | none => (none, data)
    | none =>
      match available[r % available.length]? with
      | some picked =>
        (some { picked with status := "scheduled" },
         { ideas := markScheduled data.ideas picked.id,
           shorts_domain_index := (di + 1) % n })
      | none => (none, data)

/-- A sequence of consecutive pick_idea calls, each reloading the state
saved by the previous one; the list supplies one random index per call,
and the sequence stops early if a call returns the none sentinel. -/
def pickSeq (names : List String) : BankData → List Nat → List Idea × BankData
  | data, [] => ([], data)
  | data, r :: rs =>
    match pick_idea names data r with
    | (some p, d2) =>
      let rest := pickSeq names d2 rs
      (p :: rest.1, rest.2)
    | (none, d2) => ([], d2)

/-- The domains visited by the scan, in cursor order from a cursor. -/
def cursorOrder (names : List String) (di : Nat) (m : Nat) : List String :=
  (List.range m).map (fun k => names.getD ((di + k) % names.length) "")

/-! ### Slot scheduler (backend/ideas/auto_publisher.py) -/

/-- The durable document of autopublish_state.json. -/
structure PubState where
  enabled : Bool
  published_slots : List String
  deriving Repr, DecidableEq

/-- The trim published_slots -60 applied by _mark_slot_done. -/
def keepLast (n : Nat) (l : List String) : List String :=
  l.drop (l.length - n)

/-- _is_slot_done: membership of the slot key in the done-set. -/
def is_slot_done (st : PubState) (key : String) : Bool :=
  st.published_slots.contains key

/-- _mark_slot_done: append the key and keep only the last 60 entries. -/
def mark_slot_done (st : PubState) (key : String) : PubState :=
  { st with published_slots := keepLast 60 (st.published_slots ++ [key]) }

/-- Outcome of the awaited generate_and_publish call: normal return or a
raised exception. -/
inductive GenOutcome
  | success
  | failure (e : String)
  deriving Repr, DecidableEq

/-- One slot of the loop in run_scheduled_publish: whether now lies in the
slot's window, the slot key, the idea pick_idea returned, and the outcome
generate_and_publish would have. -/
structure SlotCheck where
  inWindow : Bool
  key : String
  idea : Option Idea
  outcome : GenOutcome
  deriving Repr, DecidableEq

/-- Body of the per-slot loop in run_scheduled_publish (lines 122-148):
inside the window and not yet done, a returned idea starts one job, and
the slot is marked done whether generate_and_publish returns or raises.
The second component counts the jobs started. -/
def check_slot (st : PubState) (s : SlotCheck) : PubState × Nat :=
  if s.inWindow && !(is_slot_done st s.key) then
    match s.idea with
    | some _ =>
      match s.outcome with
      | .success => (mark_slot_done st s.key, 1)
      | .failure _ => (mark_slot_done st s.key, 1)
    | none => (st, 0)
  else (st, 0)

/-- run_scheduled_publish (lines 105-148): nothing when disabled,
otherwise every slot of today is checked in order. -/
def run_scheduled_publish (st : PubState) (slots : List SlotCheck) : PubState × Nat :=
  if !st.enabled then (st, 0)
  else slots.foldl (fun acc s =>
    let r := check_slot acc.1 s
    (r.1, acc.2 + r.2)) (st, 0)

/-! ### Buffer-lookahead scheduler (backend/ideas/long_form_publisher.py) -/

/-- The enabled flag of longform_publish_state.json. -/
structure LFState where
  enabled : Bool
  deriving Repr, DecidableEq

/-- _get_days_of_buffer (lines 81-102), on dates already parsed to day
numbers: zero without commitments or with only past ones, otherwise the
distance from today to the latest committed future date. -/
def days_of_buffer (taken : List Int) (today : Int) : Int :=
  if taken.isEmpty then 0
  else
    match taken.filter (fun d => decide (today ≤ d)) with
    | [] => 0
    | d :: ds => (ds.foldl max d) - today

/-- check_and_publish (lines 53-79): no generation when disabled or when
the buffer reaches 2 days, otherwise exactly one generation-and-publish
cycle.  The result counts the cycles run. -/
def check_and_publish (st : LFState) (taken : List Int) (today : Int) : Nat :=
  if !st.enabled then 0
  else if 2 ≤ days_of_buffer taken today then 0
  else 1

/-! ### Helper lemmas -/

lemma lookupJob_setJob (jobs : JobsStore) (id : String) (u : JobUpdate) :
    lookupJob (setJob jobs id u) id = (lookupJob jobs id).map (fun j => applyUpdate j u) := by
  induction jobs with
  | nil => rfl
  | cons p rest ih =>
    by_cases h : p.1 = id
    · simp [setJob, lookupJob, h]
    · have hb : (p.1 == id) = false := by simp [h]
      simp only [setJob, if_neg h, lookupJob, List.find?_cons, hb]
      exact ih

/-! ### C2: startup crash recovery -/

/-- Claim C2: on reload of the job store, every job whose status is
running is transitioned to failed with the reserved interrupted-by-restart
messages, every job in any other state is kept unchanged, no job of the
recovered store is running, and no job is added or dropped. -/
theorem crash_recovery_marks_running_failed (jobs : JobsStore) :
    (∀ id j, (id, j) ∈ jobs → j.status = "running" →
       (id, { j with
                status := "failed"
                error := some "Server restarted during generation"
                message := "Interrupted by server restart" }) ∈ startup_recover jobs)
  ∧ (∀ id j, (id, j) ∈ jobs → j.status ≠ "running" → (id, j) ∈ startup_recover jobs)
  ∧ (∀ p ∈ startup_recover jobs, p.2.status ≠ "running")
  ∧ (startup_recover jobs).length = jobs.length := by
  refine ⟨?_, ?_, ?_, by simp [startup_recover]⟩
  · intro id j hm hr
    have h2 := List.mem_map_of_mem (fun p => (p.1, recoverJob p.2)) hm
    simpa [startup_recover, recoverJob, hr] using h2
  · intro id j hm hr
    have h2 := List.mem_map_of_mem (fun p => (p.1, recoverJob p.2)) hm
    simpa [startup_recover, recoverJob, hr] using h2
  · intro p hp
    obtain ⟨q, hq, rfl⟩ := List.mem_map.1 hp
    by_cases h : q.2.status = "running" <;> simp [recoverJob, h]

theorem crash_recovery_marks_running_failed_witness :
    ("a", { sampleRunning with
              status := "failed"
              error := some "Server restarted during generation"
              message := "Interrupted by server restart" })
      ∈ startup_recover [("a", sampleRunning), ("b", samplePending)]
  ∧ ("b", samplePending) ∈ startup_recover [("a", sampleRunning), ("b", samplePending)] :=
  ⟨(crash_recovery_marks_running_failed _).1 "a" sampleRunning (by decide) rfl,
   (crash_recovery_marks_running_failed _).2.1 "b" samplePending (by decide) (by decide)⟩

/-! ### C3: invalid transitions are rejected without mutation -/

/-- Claim C3: a cancel request on a job that is not pending and a retry
request on a job that is not failed both return an error and leave the
job store and the subscriber queues exactly as they were. -/
theorem invalid_transition_noop (jobs : JobsStore) (qs : List Queue) (id : String) (j : Job)
    (h : lookupJob jobs id = some j) :
    (j.status ≠ "pending" →
      cancel_job jobs qs id = (jobs, qs, some "Only pending jobs can be cancelled"))
  ∧ (j.status ≠ "failed" →
      retry_job jobs qs id = (jobs, qs, some "Only failed jobs can be retried")) := by
  constructor <;> intro hs
  · simp [cancel_job, h, hs]
  · simp [retry_job, h, hs]

theorem invalid_transition_noop_witness :
    cancel_job [("a", sampleRunning)] [] "a"
      = ([("a", sampleRunning)], [], some "Only pending jobs can be cancelled")
  ∧ retry_job [("a", sampleRunning)] [] "a"
      = ([("a", sampleRunning)], [], some "Only failed jobs can be retried") :=
  ⟨(invalid_transition_noop [("a", sampleRunning)] [] "a" sampleRunning rfl).1 (by decide),
   (invalid_transition_noop [("a", sampleRunning)] [] "a" sampleRunning rfl).2 (by decide)⟩

/-! ### C7: when completed_at is written -/

/-- Counterexample to claim C7: a pipeline failure moves the job into the
terminal failed state but leaves completed_at unset. -/
theorem completed_at_missing_on_failure :
    ((lookupJob (run_generation [("a", samplePending)] [] "a" [] (.err "boom")).1 "a").map
        Job.status = some "failed")
  ∧ ((lookupJob (run_generation [("a", samplePending)] [] "a" [] (.err "boom")).1 "a").map
        Job.completed_at = some none) :=
  ⟨rfl, rfl⟩

/-- Amended claim C7: completed_at is written only by the successful
completion update of run_generation; the failure update, the cancel
update, the progress updates, the start-running update and startup
recovery leave it unchanged, and retry resets it to null. -/
theorem completed_at_policy (j : Job) (now vp vu sc seo e m : String) (p : Int) :
    (applyUpdate j (completeUpdate now vp vu sc seo)).completed_at = some now
  ∧ (applyUpdate j (failUpdate e)).completed_at = j.completed_at
  ∧ (applyUpdate j cancelUpdate).completed_at = j.completed_at
  ∧ (applyUpdate j retryUpdate).completed_at = none
  ∧ (applyUpdate j (progressUpdate p m)).completed_at = j.completed_at
  ∧ (applyUpdate j startRunningUpdate).completed_at = j.completed_at
  ∧ (recoverJob j).completed_at = j.completed_at := by
  refine ⟨rfl, rfl, rfl, rfl, rfl, rfl, ?_⟩
  unfold recoverJob
  split <;> rfl

/-! ### C8: progress updates are stored verbatim -/

/-- Counterexample to claim C8: applying progress updates 10 then 5 to a
running job stores 5, a strict decrease, with no rejection or clamping. -/
theorem progress_decrease_stored :
    ((lookupJob (update_job
        (update_job [("a", sampleRunning)] [] "a" (progressUpdate 10 "w")).1
        [] "a" (progressUpdate 5 "w2")).1 "a").map Job.progress = some 5)
  ∧ ((5 : Int) < 10) :=
  ⟨rfl, by decide⟩

/-- Amended claim C8: the store applies each progress update verbatim,
overwriting the stored progress and message with the given values even
when the new progress is lower; monotonicity is not enforced by the
store. -/
theorem progress_update_verbatim (jobs : JobsStore) (qs : List Queue) (id : String)
    (j : Job) (p : Int) (m : String) (h : lookupJob jobs id = some j) :
    lookupJob (update_job jobs qs id (progressUpdate p m)).1 id
      = some { j with progress := p, message := m } := by
  unfold update_job
  rw [h]
  simp [lookupJob_setJob, h]
  rfl

theorem progress_update_verbatim_witness :
    lookupJob (update_job [("a", sampleRunning)] [] "a" (progressUpdate 10 "w")).1 "a"
      = some { sampleRunning with progress := 10, message := "w" } :=
  progress_update_verbatim [("a", sampleRunning)] [] "a" sampleRunning 10 "w" rfl

/-! ### C10: bulk clear of terminal jobs -/

/-- Claim C10: the bulk clear removes exactly the jobs whose status is
completed, failed or cancelled, keeps every other entry unchanged, and
reports the number of removed jobs. -/
theorem clear_terminal_exact (jobs : JobsStore) (qs : List Queue) :
    (∀ p : String × Job,
        p ∈ (clear_completed_jobs jobs qs).1 ↔ p ∈ jobs ∧ isTerminal p.2.status = false)
  ∧ (clear_completed_jobs jobs qs).2.2 = jobs.countP (fun p => isTerminal p.2.status)
  ∧ (clear_completed_jobs jobs qs).1.length + (clear_completed_jobs jobs qs).2.2
      = jobs.length := by
  refine ⟨?_, ?_, ?_⟩
  · intro p
    simp [clear_completed_jobs, List.mem_filter, Bool.not_eq_true']
  · simp [clear_completed_jobs, List.countP_eq_length_filter]
  · simp only [clear_completed_jobs]
    rw [← List.countP_eq_length_filter, ← List.countP_eq_length_filter]
    have hc : (fun p : String × Job => !isTerminal p.2.status)
        = (fun a : String × Job => decide ¬ (isTerminal a.2.status = true)) := by
      funext a
      by_cases h : isTerminal a.2.status <;> simp [h]
    rw [hc, Nat.add_comm]
    exact (List.length_eq_countP_add_countP (fun p => isTerminal p.2.status) jobs).symm

/-! ### C4: exhausted bank returns the none sentinel -/

/-- Claim C4: when no registered category has an available item (with
every stored item carrying a registered category, the data-model
invariant of the bank), pick_idea returns the none sentinel and leaves
the document - cursor and item statuses - untouched. -/
theorem pick_idea_exhausted_returns_none (names : List String) (data : BankData) (r : Nat)
    (hreg : ∀ i ∈ data.ideas, i.domain ∈ names)
    (hnone : ∀ d ∈ names, countAvail d data.ideas = 0) :
    pick_idea names data r = (none, data) := by
  have hav : availIdeas data.ideas = [] := by
    by_contra hne
    obtain ⟨i, hi⟩ := List.exists_mem_of_ne_nil _ hne
    have him := (List.mem_filter.1 hi).1
    have h0 := hnone i.domain (hreg i him)
    have hmem : i ∈ (availIdeas data.ideas).filter (fun x => x.domain == i.domain) :=
      List.mem_filter.2 ⟨hi, by simp⟩
    have hpos : 0 < countAvail i.domain data.ideas :=
      List.length_pos.2 (List.ne_nil_of_mem hmem)
    omega
  simp [pick_idea, hav]

theorem pick_idea_exhausted_returns_none_witness :
    pick_idea ["Forest"] ⟨[⟨1, "Forest", "used"⟩], 0⟩ 0
      = (none, ⟨[⟨1, "Forest", "used"⟩], 0⟩) :=
  pick_idea_exhausted_returns_none ["Forest"] ⟨[⟨1, "Forest", "used"⟩], 0⟩ 0
    (by decide) (by decide)

/-! ### C5: round-robin fairness of the selector -/

lemma markScheduled_map_id (ideas : List Idea) (pid : Nat) :
    (markScheduled ideas pid).map Idea.id = ideas.map Idea.id := by
  unfold markScheduled
  rw [List.map_map]
  have hco : (Idea.id ∘ fun i =>
      if i.id = pid then { i with status := "scheduled" } else i) = Idea.id := by
    funext i
    by_cases h : i.id = pid <;> simp [h]
  rw [hco]

lemma countAvail_cons (d : String) (x : Idea) (l : List Idea) :
    countAvail d (x :: l)
      = countAvail d l + (if x.status = "available" ∧ x.domain = d then 1 else 0) := by
  by_cases h1 : x.status = "available" <;> by_cases h2 : x.domain = d <;>
    simp [countAvail, availIdeas, List.filter_cons, h1, h2]

lemma countAvail_markScheduled_ne (ideas : List Idea) (pid : Nat) (d : String)
    (h : ∀ i ∈ ideas, i.id = pid → i.domain ≠ d) :
    countAvail d (markScheduled ideas pid) = countAvail d ideas := by
  induction ideas with
  | nil => rfl
  | cons a t ih =>
    have ht : ∀ i ∈ t, i.id = pid → i.domain ≠ d :=
      fun i hi => h i (List.mem_cons_of_mem a hi)
    have hstep : markScheduled (a :: t) pid
        = (if a.id = pid then { a with status := "scheduled" } else a) :: markScheduled t pid :=
      rfl
    rw [hstep]
    by_cases hid : a.id = pid
    · have hnd : a.domain ≠ d := h a (List.mem_cons_self a t) hid
      rw [if_pos hid, countAvail_cons, countAvail_cons, ih ht]
      simp [hnd]
    · rw [if_neg hid, countAvail_cons, countAvail_cons, ih ht]

lemma pick_idea_hit (names : List String) (data : BankData) (r : Nat)
    (hn : 0 < names.length)
    (hav : 0 < countAvail
        (names.getD (data.shorts_domain_index % names.length) "") data.ideas) :
    ∃ i0, i0 ∈ data.ideas ∧ i0.status = "available" ∧
      i0.domain = names.getD (data.shorts_domain_index % names.length) "" ∧
      pick_idea names data r =
        (some { i0 with status := "scheduled" },
         { ideas := markScheduled data.ideas i0.id,
           shorts_domain_index := (data.shorts_domain_index + 1) % names.length }) := by
  have hclen : ((availIdeas data.ideas).filter (fun i =>
      i.domain == names.getD (data.shorts_domain_index % names.length) "")).length
      = countAvail (names.getD (data.shorts_domain_index % names.length) "") data.ideas := rfl
  have hcpos : 0 < ((availIdeas data.ideas).filter (fun i =>
      i.domain == names.getD (data.shorts_domain_index % names.length) "")).length := by
    rw [hclen]; exact hav
  have hapos : 0 < (availIdeas data.ideas).length :=
    lt_of_lt_of_le hcpos (List.length_filter_le _ _)
  have hane : (availIdeas data.ideas).isEmpty = false := by
    cases he : availIdeas data.ideas
    · rw [he] at hapos; simp at hapos
    · rfl
  obtain ⟨m, hm⟩ : ∃ m, names.length = m + 1 := ⟨names.length - 1, by omega⟩
  have hpred : (fun off => !((availIdeas data.ideas).filter (fun i =>
      i.domain == names.getD ((data.shorts_domain_index + off) % names.length) "")).isEmpty) 0
      = true := by
    simp only [Nat.add_zero, Bool.not_eq_true']
    cases he : (availIdeas data.ideas).filter (fun i =>
        i.domain == names.getD (data.shorts_domain_index % names.length) "")
    · rw [he] at hcpos; simp at hcpos
    · rfl
  have hfind : (List.range names.length).find? (fun off =>
      !((availIdeas data.ideas).filter (fun i =>
        i.domain == names.getD ((data.shorts_domain_index + off) % names.length) "")).isEmpty)
      = some 0 := by
    obtain ⟨t, ht⟩ : ∃ t, List.range names.length = 0 :: t := by
      rw [hm, List.range_succ_eq_map]
      exact ⟨_, rfl⟩
    rw [ht]
    exact List.find?_cons_of_pos _ hpred
  have hr : r % ((availIdeas data.ideas).filter (fun i =>
      i.domain == names.getD (data.shorts_domain_index % names.length) "")).length
      < ((availIdeas data.ideas).filter (fun i =>
      i.domain == names.getD (data.shorts_domain_index % names.length) "")).length :=
    Nat.mod_lt _ hcpos
  refine ⟨((availIdeas data.ideas).filter (fun i =>
      i.domain == names.getD (data.shorts_domain_index % names.length) "")).get ⟨_, hr⟩,
    ?_, ?_, ?_, ?_⟩
  · have hic := List.get_mem _ _ hr
    exact (List.mem_filter.1 ((List.mem_filter.1 hic).1)).1
  · have hic := List.get_mem _ _ hr
    have := (List.mem_filter.1 ((List.mem_filter.1 hic).1)).2
    simpa using this
  · have hic := List.get_mem _ _ hr
    have := (List.mem_filter.1 hic).2
    simpa using this
  · have hget : ((availIdeas data.ideas).filter (fun i =>
        i.domain == names.getD (data.shorts_domain_index % names.length) ""))[r %
        ((availIdeas data.ideas).filter (fun i =>
        i.domain == names.getD (data.shorts_domain_index % names.length) "")).length]?
        = some (((availIdeas data.ideas).filter (fun i =>
        i.domain == names.getD (data.shorts_domain_index % names.length) "")).get ⟨_, hr⟩) := by
      rw [List.getElem?_eq_getElem hr]
      rfl
    unfold pick_idea
    simp only [hane, Bool.false_eq_true, if_false, hfind, Nat.add_zero, hget]
    rw [Nat.mod_add_mod]

lemma cursorOrder_succ (names : List String) (di m : Nat) :
    cursorOrder names di (m + 1)
      = names.getD (di % names.length) "" :: cursorOrder names (di + 1) m := by
  unfold cursorOrder
  rw [List.range_succ_eq_map]
  simp only [List.map_cons, List.map_map, Nat.add_zero]
  congr 1
  apply List.map_congr_left
  intro k _
  simp only [Function.comp_apply]
  have hidx : di + Nat.succ k = di + 1 + k := by omega
  rw [hidx]

lemma cursorOrder_mod (names : List String) (c m : Nat) :
    cursorOrder names (c % names.length) m = cursorOrder names c m := by
  unfold cursorOrder
  apply List.map_congr_left
  intro k _
  rw [Nat.mod_add_mod]

lemma getD_mem_of_lt (names : List String) (i : Nat) (h : i < names.length) :
    names.getD i "" ∈ names := by
  rw [List.getD_eq_getElem?_getD, List.getElem?_eq_getElem h]
  exact List.getElem_mem h

lemma getD_ne_of_nodup (names : List String) (hnodup : names.Nodup)
    (i j : Nat) (hi : i < names.length) (hj : j < names.length) (hij : i ≠ j) :
    names.getD i "" ≠ names.getD j "" := by
  rw [List.getD_eq_getElem?_getD, List.getElem?_eq_getElem hi,
    List.getD_eq_getElem?_getD, List.getElem?_eq_getElem hj]
  simp only [Option.getD_some]
  intro hcontra
  exact hij ((List.Nodup.getElem_inj_iff hnodup).1 hcontra)

lemma mod_shift_ne (n di j : Nat) (hdi : di < n) (hj0 : 0 < j) (hjn : j < n) :
    (di + j) % n ≠ di := by
  intro hcontra
  have hme : Nat.ModEq n (di + j) (di + 0) := by
    show (di + j) % n = (di + 0) % n
    rw [hcontra, Nat.add_zero, Nat.mod_eq_of_lt hdi]
  have hj := Nat.ModEq.add_left_cancel' di hme
  have : j % n = 0 % n := hj
  rw [Nat.mod_eq_of_lt hjn, Nat.zero_mod] at this
  omega

lemma pickSeq_spec (names : List String) (hnodup : names.Nodup) (hn : 0 < names.length) :
    ∀ (rs : List Nat) (data : BankData),
      rs.length ≤ names.length →
      data.shorts_domain_index < names.length →
      (data.ideas.map Idea.id).Nodup →
      (∀ k, k < rs.length →
        0 < countAvail (names.getD ((data.shorts_domain_index + k) % names.length) "")
              data.ideas) →
      ((pickSeq names data rs).1.map Idea.domain
          = cursorOrder names data.shorts_domain_index rs.length)
    ∧ (pickSeq names data rs).2.shorts_domain_index
          = (data.shorts_domain_index + rs.length) % names.length := by
  intro rs
  induction rs with
  | nil =>
    intro data _ hcur _ _
    exact ⟨rfl, by simp [pickSeq, Nat.mod_eq_of_lt hcur]⟩
  | cons r rs ih =>
    intro data hlen hcur hids hav
    have hd0 : 0 < countAvail
        (names.getD (data.shorts_domain_index % names.length) "") data.ideas := by
      have h0 := hav 0 (by simp)
      simpa using h0
    obtain ⟨i0, hi0mem, hi0st, hi0dom, heq⟩ := pick_idea_hit names data r hn hd0
    have hstep : pickSeq names data (r :: rs)
        = ({ i0 with status := "scheduled" } ::
            (pickSeq names ⟨markScheduled data.ideas i0.id,
              (data.shorts_domain_index + 1) % names.length⟩ rs).1,
           (pickSeq names ⟨markScheduled data.ideas i0.id,
              (data.shorts_domain_index + 1) % names.length⟩ rs).2) := by
      simp [pickSeq, heq]
    have hlen2 : rs.length ≤ names.length := le_trans (by simp) hlen
    have hcur2 : (data.shorts_domain_index + 1) % names.length < names.length :=
      Nat.mod_lt _ hn
    have hids2 : ((markScheduled data.ideas i0.id).map Idea.id).Nodup := by
      rw [markScheduled_map_id]
      exact hids
    have hav2 : ∀ k, k < rs.length →
        0 < countAvail
          (names.getD ((((data.shorts_domain_index + 1) % names.length) + k) % names.length) "")
          (markScheduled data.ideas i0.id) := by
      intro k hk
      have hidx : (((data.shorts_domain_index + 1) % names.length) + k) % names.length
          = (data.shorts_domain_index + (k + 1)) % names.length := by
        rw [Nat.mod_add_mod]
        have h1 : data.shorts_domain_index + 1 + k = data.shorts_domain_index + (k + 1) := by
          omega
        rw [h1]
      rw [hidx]
      have hne : i0.domain ≠
          names.getD ((data.shorts_domain_index + (k + 1)) % names.length) "" := by
        rw [hi0dom, Nat.mod_eq_of_lt hcur]
        have hb2 : (data.shorts_domain_index + (k + 1)) % names.length < names.length :=
          Nat.mod_lt _ hn
        have hk1 : k + 1 < names.length := by
          have : rs.length + 1 ≤ names.length := by simpa using hlen
          omega
        have hij : (data.shorts_domain_index + (k + 1)) % names.length
            ≠ data.shorts_domain_index :=
          mod_shift_ne names.length data.shorts_domain_index (k + 1) hcur (by omega) hk1
        exact getD_ne_of_nodup names hnodup _ _ hcur hb2 (fun hx => hij hx.symm)
      have hpres : countAvail
          (names.getD ((data.shorts_domain_index + (k + 1)) % names.length) "")
          (markScheduled data.ideas i0.id)
          = countAvail
          (names.getD ((data.shorts_domain_index + (k + 1)) % names.length) "")
          data.ideas := by
        apply countAvail_markScheduled_ne
        intro i hi hiid
        have hieq : i = i0 := List.inj_on_of_nodup_map hids hi hi0mem (by rw [hiid])
        rw [hieq]
        exact hne
      rw [hpres]
      have := hav (k + 1) (by simpa using Nat.succ_lt_succ hk)
      exact this
    obtain ⟨ih1, ih2⟩ := ih ⟨markScheduled data.ideas i0.id,
      (data.shorts_domain_index + 1) % names.length⟩ hlen2 hcur2 hids2 hav2
    constructor
    · rw [hstep]
      simp only [List.map_cons, List.length_cons]
      rw [cursorOrder_succ, ih1, cursorOrder_mod]
      have hhead : ({ i0 with status := "scheduled" } : Idea).domain
          = names.getD (data.shorts_domain_index % names.length) "" := hi0dom
      rw [hhead]
    · rw [hstep]
      simp only
      rw [ih2, Nat.mod_add_mod]
      have h1 : data.shorts_domain_index + 1 + rs.length
          = data.shorts_domain_index + (r :: rs).length := by
        simp
        omega
      rw [h1]

lemma cursorOrder_eq_rotate (names : List String) (di : Nat) (hn : 0 < names.length) :
    cursorOrder names di names.length = names.rotate di := by
  apply List.ext_getElem
  · simp [cursorOrder, List.length_rotate]
  · intro k h1 h2
    have hk : k < names.length := by simpa [cursorOrder] using h1
    have hb : (di + k) % names.length < names.length := Nat.mod_lt _ hn
    simp only [cursorOrder, List.getElem_map, List.getElem_range]
    rw [List.getD_eq_getElem?_getD, List.getElem?_eq_getElem hb]
    rw [List.getElem_rotate]
    simp only [Option.getD_some]
    have hcomm : (di + k) % names.length = (k + di) % names.length := by
      rw [Nat.add_comm]
    congr 1

/-- Claim C5: if every registered category has at least one available
item, the persisted cursor is in range and item ids are distinct, then N
consecutive pick_idea calls return one item per category, in cursor order
from the persisted cursor (a permutation of the category list, so each
category exactly once), and after k calls the cursor has advanced to
(cursor + k) mod N, i.e. each call sets it to the matched index plus one,
modulo N. -/
theorem round_robin_fairness (names : List String) (data : BankData) (rs : List Nat)
    (hnodup : names.Nodup) (hn : 0 < names.length)
    (hcur : data.shorts_domain_index < names.length)
    (hids : (data.ideas.map Idea.id).Nodup)
    (hlen : rs.length = names.length)
    (hav : ∀ d ∈ names, 0 < countAvail d data.ideas) :
    ((pickSeq names data rs).1.map Idea.domain
        = cursorOrder names data.shorts_domain_index names.length)
  ∧ ((pickSeq names data rs).1.map Idea.domain).Perm names
  ∧ (∀ k, k ≤ names.length →
        (pickSeq names data (rs.take k)).2.shorts_domain_index
          = (data.shorts_domain_index + k) % names.length) := by
  have havk : ∀ k, k < names.length →
      0 < countAvail (names.getD ((data.shorts_domain_index + k) % names.length) "")
        data.ideas := by
    intro k _
    exact hav _ (getD_mem_of_lt names _ (Nat.mod_lt _ hn))
  have main := pickSeq_spec names hnodup hn rs data (le_of_eq hlen) hcur hids
    (fun k hk => havk k (hlen ▸ hk))
  refine ⟨by rw [main.1, hlen], ?_, ?_⟩
  · rw [main.1, hlen, cursorOrder_eq_rotate names _ hn]
    exact List.rotate_perm names _
  · intro k hk
    have hk2 : (rs.take k).length = k := by
      rw [List.length_take]
      omega
    have hsub := pickSeq_spec names hnodup hn (rs.take k) data (by omega) hcur hids
      (fun k2 hk2' => havk k2 (by omega))
    rw [hsub.2, hk2]

theorem round_robin_fairness_witness :
    ((pickSeq ["A", "B"] ⟨[⟨1, "A", "available"⟩, ⟨2, "B", "available"⟩], 0⟩ [0, 0]).1.map
        Idea.domain = cursorOrder ["A", "B"] 0 2)
  ∧ ((pickSeq ["A", "B"] ⟨[⟨1, "A", "available"⟩, ⟨2, "B", "available"⟩], 0⟩
        ([0, 0].take 2)).2.shorts_domain_index = (0 + 2) % 2) :=
  ⟨(round_robin_fairness ["A", "B"] ⟨[⟨1, "A", "available"⟩, ⟨2, "B", "available"⟩], 0⟩
      [0, 0] (by decide) (by decide) (by decide) (by decide) (by decide)
      (by decide)).1,
   (round_robin_fairness ["A", "B"] ⟨[⟨1, "A", "available"⟩, ⟨2, "B", "available"⟩], 0⟩
      [0, 0] (by decide) (by decide) (by decide) (by decide) (by decide)
      (by decide)).2.2 2 (by decide)⟩

/-! ### C1: at most one job per slot key -/

lemma mem_drop_append_last : ∀ (l : List String) (k : String) (n : Nat),
    n ≤ l.length → k ∈ (l ++ [k]).drop n := by
  intro l
  induction l with
  | nil =>
    intro k n hn
    have : n = 0 := Nat.le_zero.1 hn
    simp [this]
  | cons a t ih =>
    intro k n hn
    cases n with
    | zero => simp
    | succ m =>
      simp only [List.cons_append, List.drop_succ_cons]
      exact ih k m (by simpa using hn)

lemma is_slot_done_mark (st : PubState) (key : String) :
    is_slot_done (mark_slot_done st key) key = true := by
  simp only [is_slot_done, mark_slot_done, keepLast]
  have h := mem_drop_append_last st.published_slots key
    ((st.published_slots ++ [key]).length - 60) (by simp)
  simpa [List.contains, List.elem_eq_mem] using h

lemma check_slot_done (st : PubState) (s : SlotCheck)
    (h : is_slot_done st s.key = true) : check_slot st s = (st, 0) := by
  simp [check_slot, h]

lemma run_all_done_aux : ∀ (slots : List SlotCheck) (st : PubState) (k : Nat),
    (∀ s ∈ slots, is_slot_done st s.key = true) →
    slots.foldl (fun acc s =>
      let r := check_slot acc.1 s
      (r.1, acc.2 + r.2)) (st, k) = (st, k) := by
  intro slots
  induction slots with
  | nil => intro st k _; rfl
  | cons s rest ih =>
    intro st k h
    simp only [List.foldl_cons]
    rw [check_slot_done st s (h s (by simp))]
    simpa using ih st k (fun x hx => h x (by simp [hx]))

/-- Claim C1: after a generation-and-publish attempt for a slot, whether
it returns or raises, the slot key is in the durable done-set; any slot
check that finds a slot key in the done-set starts no job and changes no
state; and a whole scheduler run over slots whose keys are all already in
the done-set starts no job and leaves the state untouched. -/
theorem slot_single_execution (st : PubState) (key : String) (i : Idea) (oc : GenOutcome) :
    is_slot_done (check_slot st ⟨true, key, some i, oc⟩).1 key = true
  ∧ (∀ st2 s, is_slot_done st2 s.key = true → check_slot st2 s = (st2, 0))
  ∧ (∀ st2 slots, (∀ s ∈ slots, is_slot_done st2 s.key = true) →
       run_scheduled_publish st2 slots = (st2, 0)) := by
  refine ⟨?_, fun st2 s h => check_slot_done st2 s h, ?_⟩
  · by_cases h : is_slot_done st key
    · simp [check_slot, h]
    · have hb : is_slot_done st key = false := by simpa using h
      cases oc <;> simp [check_slot, hb, is_slot_done_mark]
  · intro st2 slots h
    unfold run_scheduled_publish
    cases he : st2.enabled
    · simp
    · simpa using run_all_done_aux slots st2 0 h

theorem slot_single_execution_witness :
    is_slot_done (check_slot ⟨true, []⟩
        ⟨true, "2026-01-02_07:00", some ⟨1, "Forest", "available"⟩, .failure "e"⟩).1
      "2026-01-02_07:00" = true
  ∧ check_slot ⟨true, ["2026-01-02_07:00"]⟩
        ⟨true, "2026-01-02_07:00", some ⟨1, "Forest", "available"⟩, .success⟩
      = (⟨true, ["2026-01-02_07:00"]⟩, 0)
  ∧ run_scheduled_publish ⟨true, ["a", "b"]⟩
        [⟨true, "a", some ⟨1, "Forest", "available"⟩, .success⟩, ⟨true, "b", none, .success⟩]
      = (⟨true, ["a", "b"]⟩, 0) :=
  ⟨(slot_single_execution ⟨true, []⟩ "2026-01-02_07:00" ⟨1, "Forest", "available"⟩
      (.failure "e")).1,
   (slot_single_execution ⟨true, []⟩ "x" ⟨1, "Forest", "available"⟩ .success).2.1
      ⟨true, ["2026-01-02_07:00"]⟩ _ (by decide),
   (slot_single_execution ⟨true, []⟩ "x" ⟨1, "Forest", "available"⟩ .success).2.2
      ⟨true, ["a", "b"]⟩ _ (by decide)⟩

/-! ### C6: buffer threshold of the long-form scheduler -/

lemma foldl_max_seed_le : ∀ (l : List Int) (a : Int), a ≤ l.foldl max a := by
  intro l
  induction l with
  | nil => intro a; simp
  | cons b t ih =>
    intro a
    calc a ≤ max a b := le_max_left _ _
    _ ≤ t.foldl max (max a b) := ih (max a b)

lemma mem_le_foldl_max : ∀ (l : List Int) (a x : Int), x ∈ l → x ≤ l.foldl max a := by
  intro l
  induction l with
  | nil => intro a x hx; simp at hx
  | cons b t ih =>
    intro a x hx
    rcases List.mem_cons.1 hx with rfl | hm
    · calc x ≤ max a x := le_max_right _ _
      _ ≤ t.foldl max (max a x) := foldl_max_seed_le t (max a x)
      _ = (x :: t).foldl max a := by simp
    · simpa using ih (max a b) x hm

lemma foldl_max_le : ∀ (l : List Int) (a b : Int),
    a ≤ b → (∀ x ∈ l, x ≤ b) → l.foldl max a ≤ b := by
  intro l
  induction l with
  | nil => intro a b h _; simpa using h
  | cons c t ih =>
    intro a b h hall
    simp only [List.foldl_cons]
    exact ih (max a c) b (max_le h (hall c (by simp))) (fun x hx => hall x (by simp [hx]))

/-- Claim C6: with the threshold of 2 days and the scheduler enabled, a
committed date at least 2 days after today suppresses generation, while
committed dates all at most 1 day ahead (including none at all, or only
past ones) trigger exactly one generation-and-publish cycle. -/
theorem buffer_threshold_behavior (st : LFState) (taken : List Int) (today : Int)
    (hen : st.enabled = true) :
    ((∃ d ∈ taken, today + 2 ≤ d) → check_and_publish st taken today = 0)
  ∧ ((∀ d ∈ taken, d ≤ today + 1) → check_and_publish st taken today = 1) := by
  constructor
  · rintro ⟨d, hd, h2⟩
    have hne : taken.isEmpty = false := by
      cases taken with
      | nil => simp at hd
      | cons a t => rfl
    have hdf : d ∈ taken.filter (fun x => decide (today ≤ x)) := by
      rw [List.mem_filter]
      exact ⟨hd, by simp; omega⟩
    cases hf : taken.filter (fun x => decide (today ≤ x)) with
    | nil => rw [hf] at hdf; simp at hdf
    | cons d0 ds =>
      rw [hf] at hdf
      have hle : d ≤ ds.foldl max d0 := by
        rcases List.mem_cons.1 hdf with rfl | hm
        · exact foldl_max_seed_le ds d
        · exact mem_le_foldl_max ds d0 d hm
      have hdb : days_of_buffer taken today = ds.foldl max d0 - today := by
        simp [days_of_buffer, hne, hf]
      have h2b : 2 ≤ days_of_buffer taken today := by rw [hdb]; omega
      simp [check_and_publish, hen, h2b]
  · intro hall
    have hlt : days_of_buffer taken today < 2 := by
      cases he : taken.isEmpty
      · cases hf : taken.filter (fun x => decide (today ≤ x)) with
        | nil =>
          have hdb : days_of_buffer taken today = 0 := by
            simp [days_of_buffer, he, hf]
          omega
        | cons d0 ds =>
          have hsub : ∀ x ∈ d0 :: ds, x ≤ today + 1 := by
            intro x hx
            rw [← hf] at hx
            exact hall x (List.mem_of_mem_filter hx)
          have hm : ds.foldl max d0 ≤ today + 1 :=
            foldl_max_le ds d0 (today + 1) (hsub d0 (by simp))
              (fun x hx => hsub x (by simp [hx]))
          have hdb : days_of_buffer taken today = ds.foldl max d0 - today := by
            simp [days_of_buffer, he, hf]
          omega
      · have hdb : days_of_buffer taken today = 0 := by
          simp [days_of_buffer, he]
        omega
    have h2b : ¬ 2 ≤ days_of_buffer taken today := by omega
    simp [check_and_publish, hen, h2b]

theorem buffer_threshold_behavior_witness :
    check_and_publish ⟨true⟩ [3] 0 = 0
  ∧ check_and_publish ⟨true⟩ [1] 0 = 1
  ∧ check_and_publish ⟨true⟩ [] 0 = 1
  ∧ check_and_publish ⟨true⟩ [-5] 0 = 1 :=
  ⟨(buffer_threshold_behavior ⟨true⟩ [3] 0 rfl).1 ⟨3, by decide, by decide⟩,
   (buffer_threshold_behavior ⟨true⟩ [1] 0 rfl).2 (by decide),
   (buffer_threshold_behavior ⟨true⟩ [] 0 rfl).2 (by simp),
   (buffer_threshold_behavior ⟨true⟩ [-5] 0 rfl).2 (by decide)⟩

/-! ### C9: best-effort SSE fan-out -/

/-- Claim C9: a job mutation's effect on the store does not depend on the
subscriber queues; no subscriber is added or removed by the broadcast;
each subscriber with room receives exactly one appended job_update record
carrying the updated job; and a subscriber whose queue is full is skipped
silently, its queue left unchanged. -/
theorem sse_best_effort_delivery (jobs : JobsStore) (id : String) (u : JobUpdate)
    (j : Job) (h : lookupJob jobs id = some j) (qs qs2 : List Queue) :
    ((update_job jobs qs id u).1 = (update_job jobs qs2 id u).1)
  ∧ ((update_job jobs qs id u).2.length = qs.length)
  ∧ (∀ (k : Nat) (q : Queue), qs[k]? = some q →
       (q.items.length < q.maxsize →
          (update_job jobs qs id u).2[k]? =
            some { q with items := q.items ++ [jobUpdateMsg (applyUpdate j u)] })
     ∧ (q.maxsize ≤ q.items.length →
          (update_job jobs qs id u).2[k]? = some q)) := by
  unfold update_job
  rw [h]
  refine ⟨rfl, by simp [broadcast_sse], ?_⟩
  intro k q hk
  constructor
  · intro hc
    simp [broadcast_sse, List.getElem?_map, hk, put_nowait, hc]
  · intro hc
    have hnc : ¬ q.items.length < q.maxsize := Nat.not_lt.2 hc
    simp [broadcast_sse, List.getElem?_map, hk, put_nowait, hnc]

theorem sse_best_effort_delivery_witness :
    ((update_job [("a", samplePending)] [⟨2, []⟩, ⟨0, []⟩] "a" (progressUpdate 10 "x")).1
      = (update_job [("a", samplePending)] [] "a" (progressUpdate 10 "x")).1)
  ∧ (update_job [("a", samplePending)] [⟨2, []⟩, ⟨0, []⟩] "a" (progressUpdate 10 "x")).2[0]?
      = some ⟨2, [jobUpdateMsg (applyUpdate samplePending (progressUpdate 10 "x"))]⟩
  ∧ (update_job [("a", samplePending)] [⟨2, []⟩, ⟨0, []⟩] "a" (progressUpdate 10 "x")).2[1]?
      = some ⟨0, []⟩ := by
  have H := sse_best_effort_delivery [("a", samplePending)] "a" (progressUpdate 10 "x")
    samplePending rfl [⟨2, []⟩, ⟨0, []⟩] []
  exact ⟨H.1, by simpa using (H.2.2 0 ⟨2, []⟩ rfl).1 (by decide),
    by simpa using (H.2.2 1 ⟨0, []⟩ rfl).2 (by decide)⟩

theorem clear_terminal_exact_witness :
    (("b", samplePending) ∈
        (clear_completed_jobs [("a", sampleFailed), ("b", samplePending)] []).1)
  ∧ (clear_completed_jobs [("a", sampleFailed), ("b", samplePending)] []).2.2 = 1 :=
  ⟨(clear_terminal_exact [("a", sampleFailed), ("b", samplePending)] []).1 _ |>.2
      ⟨by decide, by decide⟩,
   by rw [(clear_terminal_exact [("a", sampleFailed), ("b", samplePending)] []).2.1]; decide⟩

end Studio
